import Mathlib

/-!
Shallow embedding of `src/main.rs` (a decorated `ls`: scan one directory,
classify entries, format sizes and timestamps, sort, print a table).

Modelling conventions:
* Filesystem and OS interactions are parameters: path resolution, the
  `read_dir` result, and each entry's metadata are inputs to the model.
* Rust `Result`/panic: a fallible model function returns `Option`; `none`
  models a panic (`unwrap` on `Err`), which aborts the whole program.
* `f64` size arithmetic: the source only ever divides the byte count by
  1024 (at most four times), which is exact in binary floating point, so
  the running value is represented exactly as a numerator/denominator pair
  of naturals (`den` a power of 1024). `u64 -> f64` conversion rounding
  (only relevant above 2^53) is not modelled.
* Output: `print` returns the logical rows (lists of tab-separated cells)
  instead of writing them through `TabWriter`.
-/

/-- Zero-pads a natural below 100 to two decimal digits, as both `chrono`'s
`%H`/`%M`/`%S`/`%m`/`%d` fields and the fractional part of `{:.2}` do. -/
def pad2 (n : Nat) : String :=
  if n < 10 then "0" ++ toString n else "" ++ toString n

/-- The string of `n` dash characters, modelling
`std::iter::repeat('-').take(n).collect()` (main.rs lines 117-119). -/
def dashes (n : Nat) : String :=
  String.mk (List.replicate n '-')

/-- Rounds the rational `num / den` (with `den > 0`) to the nearest integer,
ties to even: the rounding Rust's `{:.2}` float formatting applies to the
exact binary value. -/
def roundHalfEven (num den : Nat) : Nat :=
  let q := num / den
  let r := num % den
  if 2 * r < den then q
  else if den < 2 * r then q + 1
  else if q % 2 = 0 then q else q + 1

/-- Renders the exact value `num / den` with two decimal digits, modelling
`format!("{:.2}", size)` (main.rs line 226) on an `f64` holding that exact
value. -/
def fmt2 (num den : Nat) : String :=
  let k := roundHalfEven (100 * num) den
  toString (k / 100) ++ "." ++ pad2 (k % 100)

/-- The `while size >= 1024.0 && unit < units.len() - 1` loop of
`human_readable_size` (main.rs lines 221-224).  The running `f64` is the
exact value `num / den`; `size /= 1024.0` multiplies `den` by 1024 (exact),
and `size >= 1024.0` is `1024 * den <= num`.  The guard `unit < 4` bounds
the iteration count by 4, so fuel 4 computes the loop exactly when started
at `unit = 0`. -/
def hrsLoop : Nat → Nat × Nat → Nat → (Nat × Nat) × Nat
  | 0, s, unit => (s, unit)
  | fuel + 1, s, unit =>
    if 1024 * s.2 ≤ s.1 ∧ unit < 4 then hrsLoop fuel (s.1, s.2 * 1024) (unit + 1)
    else (s, unit)

/-- `human_readable_size` (main.rs lines 216-227). -/
def human_readable_size (size : Nat) : String :=
  let units := ["B", "KB", "MB", "GB", "TB"]
  let su := hrsLoop 4 (size, 1) 0
  fmt2 su.1.1 su.1.2 ++ " " ++ units.getD su.2 ""

/-- Proleptic-Gregorian date for a count of days since 1970-01-01
(the standard civil-from-days computation used by `chrono`). -/
def civilFromDays (days : Nat) : Nat × Nat × Nat :=
  let z := days + 719468
  let era := z / 146097
  let doe := z % 146097
  let yoe := (doe - doe / 1460 + doe / 36524 - doe / 146096) / 365
  let y := yoe + era * 400
  let doy := doe - (365 * yoe + yoe / 4 - yoe / 100)
  let mp := (5 * doy + 2) / 153
  let d := doy - (153 * mp + 2) / 5 + 1
  let m := if mp < 10 then mp + 3 else mp - 9
  (if m ≤ 2 then y + 1 else y, m, d)

/-- Models `DateTime::<Utc>::from(UNIX_EPOCH + duration).format("%Y-%m-%d %H:%M:%S")`
(main.rs lines 74-75) for a nonnegative number of epoch seconds (years in
1970..9999, where `%Y` prints four digits). -/
def formatTimestamp (secs : Nat) : String :=
  let ymd := civilFromDays (secs / 86400)
  let sod := secs % 86400
  toString ymd.1 ++ "-" ++ pad2 ymd.2.1 ++ "-" ++ pad2 ymd.2.2 ++ " " ++
    pad2 (sod / 3600) ++ ":" ++ pad2 (sod % 3600 / 60) ++ ":" ++ pad2 (sod % 60)

/-- The `std::fs::FileType` answers the scanner consults: `is_dir()`,
`is_file()`, or neither (symlink, socket, device, ...). -/
inductive FType
  | dir
  | file
  | other
deriving DecidableEq

/-- The slice of `std::fs::Metadata` the scanner reads: file type, byte
length, modification time (`none` models `metadata.modified()` returning
`Err`; a negative value models a pre-epoch `SystemTime`), and the
permission mode bits. -/
structure Metadata where
  ftype : FType
  len : Nat
  modified : Option Int
  mode : Nat
deriving DecidableEq

/-- One `Ok` entry yielded by `read_dir`: `meta = none` models
`entry.metadata()` returning `Err`, `fname = none` models
`entry.file_name().into_string()` returning `Err` (non-UTF-8 name). -/
structure RawEntry where
  meta : Option Metadata
  fname : Option String
deriving DecidableEq

/-- `struct FileInfo` (main.rs lines 16-20). -/
structure FileInfo where
  name : String
  readable_size : String
  modified_at : String
deriving DecidableEq

/-- `struct DirContents` (main.rs lines 11-15). -/
structure DirContents where
  files : List FileInfo
  directories : List FileInfo
  executables : List FileInfo
deriving DecidableEq

/-- Models Rust `str::to_lowercase` (ASCII range; the extension table and
the claims only involve ASCII). -/
def toLowercase (s : String) : String :=
  String.mk (s.data.map Char.toLower)

/-- Lexicographic comparison of char lists by code point: Rust's
`str::cmp` (byte order on UTF-8, equivalently code-point order) as a
boolean less-or-equal. -/
def leChars : List Char → List Char → Bool
  | [], _ => true
  | _ :: _, [] => false
  | a :: as, b :: bs =>
    if a.toNat < b.toNat then true
    else if b.toNat < a.toNat then false
    else leChars as bs

/-- The sort key of main.rs lines 103-105: the lowercased name. -/
def nameKey (f : FileInfo) : List Char :=
  (toLowercase f.name).data

/-- The comparator `a.name.to_lowercase().cmp(&b.name.to_lowercase())`
(main.rs lines 103-105) as a boolean less-or-equal. -/
def fileInfoLe (a b : FileInfo) : Bool :=
  leChars (nameKey a) (nameKey b)

/-- Stable insertion of `a` into `l`: `a` goes before the first element
not strictly below it. -/
def insertBy {α : Type} (le : α → α → Bool) (a : α) : List α → List α
  | [] => [a]
  | b :: rest => if le a b then a :: b :: rest else b :: insertBy le a rest

/-- Stable insertion sort.  Rust `Vec::sort_by` is a stable sort, and for a
total preorder comparator every stable sort computes the same list, so this
is extensionally the source's sort. -/
def sortBy {α : Type} (le : α → α → Bool) : List α → List α
  | [] => []
  | a :: rest => insertBy le a (sortBy le rest)

/-- `vec.sort_by(|a, b| a.name.to_lowercase().cmp(&b.name.to_lowercase()))`
(main.rs lines 103-105). -/
def sortFiles (l : List FileInfo) : List FileInfo :=
  sortBy fileInfoLe l

/-- The scanning loop of `extract_files_from_path` (main.rs lines 57-101)
over the `read_dir` iterator items (`none` = an `Err` item, skipped by
`if let Ok(entry)`).  Returns the three accumulator vectors in encounter
order, or `none` when an `unwrap` panics (unreadable metadata, non-UTF-8
name, or pre-epoch modification time). -/
def scanEntries : List (Option RawEntry) → Option (List FileInfo × List FileInfo × List FileInfo)
  | [] => some ([], [], [])
  | none :: rest => scanEntries rest
  | some e :: rest =>
    match e.meta with
    | none => none
    | some md =>
      match e.fname with
      | none => none
      | some file_name =>
        if file_name = "." ∨ file_name = ".." then scanEntries rest
        else
          let file_size := human_readable_size md.len
          match md.modified with
          | none => scanEntries rest
          | some t =>
            if t < 0 then none
            else
              let mod_time := formatTimestamp t.toNat
              match scanEntries rest with
              | none => none
              | some fde =>
                if md.ftype = FType.dir then
                  some (fde.1, ⟨file_name, file_size, mod_time⟩ :: fde.2.1, fde.2.2)
                else if md.ftype = FType.file then
                  if Nat.land md.mode 0o111 ≠ 0 then
                    some (fde.1, fde.2.1, ⟨file_name, file_size, mod_time⟩ :: fde.2.2)
                  else
                    some (⟨file_name, file_size, mod_time⟩ :: fde.1, fde.2.1, fde.2.2)
                else
                  some fde

/-- `extract_files_from_path` (main.rs lines 50-111).  The `read_dir`
result is a parameter: `none` models `fs::read_dir` returning `Err` (the
`if let Ok(entries)` body is skipped and the vectors stay empty). -/
def extract_files_from_path (readDir : Option (List (Option RawEntry))) : Option DirContents :=
  let scanned := match readDir with
    | none => some ([], [], [])
    | some entries => scanEntries entries
  match scanned with
  | none => none
  | some fde => some ⟨sortFiles fde.1, sortFiles fde.2.1, sortFiles fde.2.2⟩

/-- `struct LongestFileInfoFields` (main.rs lines 140-144). -/
structure LongestFileInfoFields where
  max_name_len : Nat
  max_size_len : Nat
  max_date_len : Nat
deriving DecidableEq

/-- The `update_max_lengths` closure (main.rs lines 152-163); Rust
`String::len` is the UTF-8 byte length. -/
def updateMaxLengths (acc : LongestFileInfoFields) (files : List FileInfo) : LongestFileInfoFields :=
  files.foldl (fun a f =>
    { max_name_len := max a.max_name_len f.name.utf8ByteSize
      max_size_len := max a.max_size_len f.readable_size.utf8ByteSize
      max_date_len := max a.max_date_len f.modified_at.utf8ByteSize }) acc

/-- `DirContents::get_longest_field_entries` (main.rs lines 147-173). -/
def DirContents.get_longest_field_entries (dc : DirContents) : LongestFileInfoFields :=
  updateMaxLengths (updateMaxLengths (updateMaxLengths ⟨0, 0, 0⟩ dc.files) dc.directories)
    dc.executables

/-- The extension-to-emoji table of `get_file_emoji` (main.rs lines
178-206), as the association list the `HashMap` is built from (no key is
inserted twice, so lookup agrees with the `HashMap`). -/
def emoji_map : List (String × String) :=
  [("txt", "📝"), ("md", "⬇️"), ("rs", "🦀"), ("rb", "💎"), ("go", "🐹"),
   ("py", "🐍"), ("java", "☕"), ("zig", "⚡"), ("c", "💾"), ("cpp", "💾"),
   ("js", "📜"), ("html", "🌐"), ("css", "🎨"), ("json", "📑"), ("csv", "📊"),
   ("mp3", "🎵"), ("wav", "🎵"), ("mp4", "🎬"), ("png", "🖼️"), ("jpg", "📷"),
   ("jpeg", "📷"), ("gif", "🎞️"), ("zip", "📦"), ("jar", "📦"), ("tar", "📦"),
   ("pdf", "📕")]

/-- Models `str::rsplit_once` : splits at the last occurrence of `c`,
returning the parts before and after it, or `none` when `c` does not
occur. -/
def rsplitOnceAux (c : Char) : List Char → Option (List Char × List Char)
  | [] => none
  | a :: rest =>
    match rsplitOnceAux c rest with
    | some p => some (a :: p.1, p.2)
    | none => if a = c then some ([], rest) else none

/-- `file_name.rsplit_once('.')` lifted to strings. -/
def rsplitOnce (s : String) (c : Char) : Option (String × String) :=
  match rsplitOnceAux c s.data with
  | some p => some (String.mk p.1, String.mk p.2)
  | none => none

/-- The `extension` local of `get_file_emoji` (main.rs lines 208-211):
the lowercased substring after the last dot, or the empty string for a
dotless name. -/
def fileExtension (file_name : String) : String :=
  match rsplitOnce file_name '.' with
  | some p => toLowercase p.2
  | none => ""

/-- `get_file_emoji` (main.rs lines 177-214). -/
def get_file_emoji (file_name : String) : String :=
  (emoji_map.lookup (fileExtension file_name)).getD "📄"

/-- `DirContents::print` (main.rs lines 114-136), modelled as the list of
logical rows handed to the `TabWriter` (each row the list of its
tab-separated cells) instead of as bytes on stdout. -/
def DirContents.print (dc : DirContents) : List (List String) :=
  let max_lengths := dc.get_longest_field_entries
  let modified_at_delim := dashes max_lengths.max_date_len
  let size_of_delim := dashes max_lengths.max_size_len
  let name_of_delim := dashes max_lengths.max_name_len
  [["Modified", "Size", "Name"],
   ["---" ++ modified_at_delim, size_of_delim, name_of_delim]]
  ++ dc.directories.map (fun e => ["📁 " ++ e.modified_at, e.readable_size, e.name ++ "/"])
  ++ dc.files.map (fun e => [get_file_emoji e.name ++ " " ++ e.modified_at, e.readable_size, e.name])
  ++ dc.executables.map (fun e => ["⚡ " ++ e.modified_at, e.readable_size, e.name])

/-- Outcome of `Path::new(dir_path).canonicalize()` followed by
`path.is_dir()` (main.rs lines 33-47): resolution failed, or resolved to
a directory / non-directory. -/
inductive ResolveResult
  | ok (isDir : Bool)
  | err
deriving DecidableEq

/-- Observable outcome of one invocation: process exit code, stderr lines,
and the printed table rows (`none` when no table is printed). -/
structure ProgResult where
  exitCode : Nat
  stderrLines : List String
  stdoutRows : Option (List (List String))
deriving DecidableEq

/-- `main` (main.rs lines 21-48) with the OS interactions as parameters.
On either error path `main` merely calls `eprintln!` and returns `()`, so
the process exit code is 0; a panic inside the scanner aborts the process
with Rust's panic exit code 101 and prints no table. -/
def runMain (dir_path : String) (resolved : ResolveResult) (readDir : Option (List (Option RawEntry))) : ProgResult :=
  match resolved with
  | ResolveResult.ok true =>
    match extract_files_from_path readDir with
    | none => ⟨101, [], none⟩
    | some dir_contents => ⟨0, [], some dir_contents.print⟩
  | ResolveResult.ok false =>
    ⟨0, ["❌ Error: \x27" ++ dir_path ++ "\x27 is not a directory."], none⟩
  | ResolveResult.err =>
    ⟨0, ["❌ Error: Directory \x27" ++ dir_path ++ "\x27 does not exist."], none⟩

/-- Unit index asserted by claim C5: the unit reached by successively
dividing by 1024 while the value stays at or above 1024, capped at TB
(index 4); the claim's examples pin this reading of "largest unit such
that the scaled value is < 1024". -/
def claimUnitIndex (n : Nat) : Nat :=
  if n < 1024 then 0
  else if n < 1024 ^ 2 then 1
  else if n < 1024 ^ 3 then 2
  else if n < 1024 ^ 4 then 3
  else 4

/-- The property claim C3 asserts of column `j` of a printed listing: the
separator row's cell is at least as long as that column's cell in the
header row and in every data row. -/
def sepCoversColumn (dc : DirContents) (j : Nat) : Prop :=
  (((dc.print).getD 0 []).getD j "").length ≤ (((dc.print).getD 1 []).getD j "").length ∧
  ∀ row ∈ (dc.print).drop 2, (row.getD j "").length ≤ (((dc.print).getD 1 []).getD j "").length

section SortLemmas

variable {α : Type}

lemma insertBy_perm (le : α → α → Bool) (a : α) (l : List α) :
    List.Perm (insertBy le a l) (a :: l) := by
  induction l with
  | nil => simp [insertBy]
  | cons b rest ih =>
    simp only [insertBy]
    split
    · exact List.Perm.refl _
    · exact (ih.cons b).trans (List.Perm.swap a b rest)

lemma sortBy_perm (le : α → α → Bool) (l : List α) : List.Perm (sortBy le l) l := by
  induction l with
  | nil => simp [sortBy]
  | cons a rest ih =>
    exact (insertBy_perm le a (sortBy le rest)).trans (ih.cons a)

lemma mem_insertBy (le : α → α → Bool) (a x : α) (l : List α) :
    x ∈ insertBy le a l ↔ x = a ∨ x ∈ l := by
  rw [(insertBy_perm le a l).mem_iff, List.mem_cons]

lemma mem_sortBy (le : α → α → Bool) (x : α) (l : List α) :
    x ∈ sortBy le l ↔ x ∈ l := (sortBy_perm le l).mem_iff

lemma insertBy_pairwise (le : α → α → Bool)
    (htot : ∀ x y, le x y = true ∨ le y x = true)
    (htrans : ∀ x y z, le x y = true → le y z = true → le x z = true)
    (a : α) (l : List α) (h : l.Pairwise (fun x y => le x y = true)) :
    (insertBy le a l).Pairwise (fun x y => le x y = true) := by
  induction l with
  | nil => simp [insertBy]
  | cons b rest ih =>
    rcases List.pairwise_cons.mp h with ⟨hb, hrest⟩
    simp only [insertBy]
    split
    case isTrue hab =>
      refine List.pairwise_cons.mpr ⟨?_, h⟩
      intro y hy
      rcases List.mem_cons.mp hy with hyb | hyr
      · exact hyb ▸ hab
      · exact htrans a b y hab (hb y hyr)
    case isFalse hab =>
      have hba : le b a = true := (htot a b).resolve_left hab
      refine List.pairwise_cons.mpr ⟨?_, ih hrest⟩
      intro y hy
      rcases (mem_insertBy le a y rest).mp hy with hya | hyr
      · exact hya ▸ hba
      · exact hb y hyr

lemma sortBy_pairwise (le : α → α → Bool)
    (htot : ∀ x y, le x y = true ∨ le y x = true)
    (htrans : ∀ x y z, le x y = true → le y z = true → le x z = true)
    (l : List α) :
    (sortBy le l).Pairwise (fun x y => le x y = true) := by
  induction l with
  | nil => simp [sortBy]
  | cons a rest ih => exact insertBy_pairwise le htot htrans a (sortBy le rest) ih

lemma eq_of_perm_of_map_eq {β : Type} (f : α → β) :
    ∀ l₁ l₂ : List α, List.Perm l₁ l₂ →
      (∀ a ∈ l₁, ∀ b ∈ l₁, f a = f b → a = b) →
      l₁.map f = l₂.map f → l₁ = l₂ := by
  intro l₁
  induction l₁ with
  | nil =>
    intro l₂ _ _ hmap
    exact (List.map_eq_nil_iff.mp hmap.symm).symm
  | cons a t₁ ih =>
    intro l₂ hperm hinj hmap
    cases l₂ with
    | nil => simp at hmap
    | cons b t₂ =>
      simp only [List.map_cons, List.cons.injEq] at hmap
      have hb : b ∈ a :: t₁ := hperm.symm.subset (List.mem_cons_self b t₂)
      have hab : a = b := hinj a (List.mem_cons_self a t₁) b hb hmap.1
      subst hab
      have hp := hperm.cons_inv
      have := ih t₂ hp
        (fun x hx y hy hxy => hinj x (List.mem_cons_of_mem a hx) y (List.mem_cons_of_mem a hy) hxy)
        hmap.2
      rw [this]

end SortLemmas

lemma leChars_total : ∀ x y : List Char, leChars x y = true ∨ leChars y x = true := by
  intro x
  induction x with
  | nil => intro y; left; simp [leChars]
  | cons a as ih =>
    intro y
    cases y with
    | nil => right; simp [leChars]
    | cons b bs =>
      simp only [leChars]
      rcases Nat.lt_trichotomy a.toNat b.toNat with h | h | h
      · left; simp [h]
      · have h1 : ¬ a.toNat < b.toNat := by omega
        have h2 : ¬ b.toNat < a.toNat := by omega
        simpa [h1, h2] using ih bs
      · right; simp [h]

lemma leChars_trans :
    ∀ x y z : List Char, leChars x y = true → leChars y z = true → leChars x z = true := by
  intro x
  induction x with
  | nil => intro y z _ _; simp [leChars]
  | cons a as ih =>
    intro y z hxy hyz
    cases y with
    | nil => simp [leChars] at hxy
    | cons b bs =>
      cases z with
      | nil => simp [leChars] at hyz
      | cons c cs =>
        simp only [leChars] at hxy hyz ⊢
        by_cases hab : a.toNat < b.toNat
        · by_cases hbc : b.toNat < c.toNat
          · rw [if_pos (show a.toNat < c.toNat by omega)]
          · rw [if_neg hbc] at hyz
            by_cases hcb : c.toNat < b.toNat
            · rw [if_pos hcb] at hyz; exact absurd hyz (by decide)
            · rw [if_pos (show a.toNat < c.toNat by omega)]
        · rw [if_neg hab] at hxy
          by_cases hba : b.toNat < a.toNat
          · rw [if_pos hba] at hxy; exact absurd hxy (by decide)
          · rw [if_neg hba] at hxy
            by_cases hbc : b.toNat < c.toNat
            · rw [if_pos (show a.toNat < c.toNat by omega)]
            · rw [if_neg hbc] at hyz
              by_cases hcb : c.toNat < b.toNat
              · rw [if_pos hcb] at hyz; exact absurd hyz (by decide)
              · rw [if_neg hcb] at hyz
                rw [if_neg (show ¬ a.toNat < c.toNat by omega),
                  if_neg (show ¬ c.toNat < a.toNat by omega)]
                exact ih bs cs hxy hyz

lemma leChars_antisymm :
    ∀ x y : List Char, leChars x y = true → leChars y x = true → x = y := by
  intro x
  induction x with
  | nil =>
    intro y _ hyx
    cases y with
    | nil => rfl
    | cons b bs => simp [leChars] at hyx
  | cons a as ih =>
    intro y hxy hyx
    cases y with
    | nil => simp [leChars] at hxy
    | cons b bs =>
      simp only [leChars] at hxy hyx
      by_cases hab : a.toNat < b.toNat
      · rw [if_neg (show ¬ b.toNat < a.toNat by omega), if_pos hab] at hyx
        exact absurd hyx (by decide)
      · rw [if_neg hab] at hxy
        by_cases hba : b.toNat < a.toNat
        · rw [if_pos hba] at hxy; exact absurd hxy (by decide)
        · rw [if_neg hba] at hxy
          rw [if_neg hba, if_neg hab] at hyx
          have hn : a.toNat = b.toNat := by omega
          rw [Char.ext (UInt32.ext hn), ih bs hxy hyx]

lemma fileInfoLe_total : ∀ a b : FileInfo, fileInfoLe a b = true ∨ fileInfoLe b a = true :=
  fun a b => leChars_total (nameKey a) (nameKey b)

lemma fileInfoLe_trans :
    ∀ a b c : FileInfo, fileInfoLe a b = true → fileInfoLe b c = true → fileInfoLe a c = true :=
  fun a b c hab hbc => leChars_trans (nameKey a) (nameKey b) (nameKey c) hab hbc

/-- Entry with uppercase name used in the sorter counterexample. -/
def sampleUpperA : FileInfo := ⟨"A", "0.00 B", "1970-01-01 00:00:00"⟩

/-- Entry whose name is the lowercase of `sampleUpperA`'s. -/
def sampleLowerA : FileInfo := ⟨"a", "0.00 B", "1970-01-01 00:00:00"⟩

/-- Entry with a distinct case-insensitive name, for the witness. -/
def sampleLowerB : FileInfo := ⟨"b", "0.00 B", "1970-01-01 00:00:00"⟩

/-- Claim C4 counterexample: the two enumeration orders of the same
two-entry set {"A", "a"} (equal everywhere but name case) are a
permutation of each other, yet the sorter returns different orders for
them — Rust's stable `sort_by` keeps enumeration order for entries whose
lowercased names tie, so ties are not broken by name and the output is not
a function of the input set. -/
theorem c4_counterexample :
    List.Perm [sampleUpperA, sampleLowerA] [sampleLowerA, sampleUpperA] ∧
    sortFiles [sampleUpperA, sampleLowerA] ≠ sortFiles [sampleLowerA, sampleUpperA] :=
  ⟨List.Perm.swap sampleLowerA sampleUpperA [], by decide⟩

/-- Claim C4 (amended): within each kind group the sorter orders entries
by case-insensitive name with a stable sort, so ties (equal lowercased
names) keep filesystem enumeration order; whenever no two entries of a
group share a lowercased name, any two scans producing the same set of
entries sort to the same output order, and that output is ordered by the
case-insensitive-name comparator. -/
theorem c4_amended (l₁ l₂ : List FileInfo)
    (hperm : List.Perm l₁ l₂)
    (hinj : ∀ a ∈ l₁, ∀ b ∈ l₁, nameKey a = nameKey b → a = b) :
    sortFiles l₁ = sortFiles l₂ ∧
    (sortFiles l₁).Pairwise (fun a b => fileInfoLe a b = true) := by
  have hs₁ : (sortFiles l₁).Pairwise (fun a b => fileInfoLe a b = true) :=
    sortBy_pairwise fileInfoLe fileInfoLe_total fileInfoLe_trans l₁
  have hs₂ : (sortFiles l₂).Pairwise (fun a b => fileInfoLe a b = true) :=
    sortBy_pairwise fileInfoLe fileInfoLe_total fileInfoLe_trans l₂
  refine ⟨?_, hs₁⟩
  have hp : List.Perm (sortFiles l₁) (sortFiles l₂) :=
    (sortBy_perm fileInfoLe l₁).trans (hperm.trans (sortBy_perm fileInfoLe l₂).symm)
  haveI : IsAntisymm (List Char) (fun x y => leChars x y = true) :=
    ⟨fun a b h1 h2 => leChars_antisymm a b h1 h2⟩
  have hsorted₁ : List.Sorted (fun x y : List Char => leChars x y = true)
      ((sortFiles l₁).map nameKey) := List.pairwise_map.mpr hs₁
  have hsorted₂ : List.Sorted (fun x y : List Char => leChars x y = true)
      ((sortFiles l₂).map nameKey) := List.pairwise_map.mpr hs₂
  have hmap : (sortFiles l₁).map nameKey = (sortFiles l₂).map nameKey :=
    List.eq_of_perm_of_sorted (hp.map nameKey) hsorted₁ hsorted₂
  have hinj' : ∀ a ∈ sortFiles l₁, ∀ b ∈ sortFiles l₁, nameKey a = nameKey b → a = b := by
    intro a ha b hb
    exact hinj a ((mem_sortBy fileInfoLe a l₁).mp ha) b ((mem_sortBy fileInfoLe b l₁).mp hb)
  exact eq_of_perm_of_map_eq nameKey (sortFiles l₁) (sortFiles l₂) hp hinj' hmap

/-- Witness for `c4_amended` at a concrete two-entry set with distinct
case-insensitive names, in both enumeration orders. -/
theorem c4_amended_witness :
    sortFiles [sampleUpperA, sampleLowerB] = sortFiles [sampleLowerB, sampleUpperA] :=
  (c4_amended [sampleUpperA, sampleLowerB] [sampleLowerB, sampleUpperA]
    (List.Perm.swap sampleLowerB sampleUpperA []) (by decide)).1

/-- Claim C1 counterexample: invoking with a path that fails to resolve
prints a single diagnostic line and no table, but the process exit code is
0, not non-zero — `main` only calls `eprintln!` and returns `()` on both
failure paths (main.rs lines 41, 45), so the claimed non-zero exit status
is false at this input. -/
theorem c1_counterexample :
    (runMain "missing" ResolveResult.err none).exitCode = 0 ∧
    (runMain "missing" ResolveResult.err none).stderrLines.length = 1 ∧
    (runMain "missing" ResolveResult.err none).stdoutRows = none := by
  decide

/-- Claim C1 (amended): on a path that fails to resolve, and on a path
that resolves to a non-directory, the program prints exactly one
diagnostic line to stderr (with distinct wording between the two cases)
and no table, but exits with status zero just as on success; every
invocation whose scan completes also exits with status zero and prints
the table. -/
theorem c1_amended (dir_path : String) :
    runMain dir_path ResolveResult.err none =
      ⟨0, ["❌ Error: Directory \x27" ++ dir_path ++ "\x27 does not exist."], none⟩ ∧
    runMain dir_path (ResolveResult.ok false) none =
      ⟨0, ["❌ Error: \x27" ++ dir_path ++ "\x27 is not a directory."], none⟩ ∧
    (∀ (readDir : Option (List (Option RawEntry))) (dc : DirContents),
      extract_files_from_path readDir = some dc →
      runMain dir_path (ResolveResult.ok true) readDir = ⟨0, [], some dc.print⟩) := by
  refine ⟨rfl, rfl, ?_⟩
  intro readDir dc h
  simp [runMain, h]

/-- Witness for `c1_amended`: a successful scan of an empty directory
exits 0 and prints the table. -/
theorem c1_amended_witness :
    runMain "d" (ResolveResult.ok true) (some []) =
      ⟨0, [], some (DirContents.print ⟨[], [], []⟩)⟩ :=
  (c1_amended "d").2.2 (some []) ⟨[], [], []⟩ (by decide)

/-- Claim C10: when the path resolves to a directory but `fs::read_dir`
fails, the `if let Ok(entries)` body is skipped, so the listing is empty:
the program prints just the header row and a separator row whose Modified
cell is the 3 constant dashes (the other separator cells are empty), emits
nothing on stderr, and exits with status zero. -/
theorem c10_enumeration_failure (dir_path : String) :
    runMain dir_path (ResolveResult.ok true) none =
      ⟨0, [], some [["Modified", "Size", "Name"], ["---", "", ""]]⟩ := by
  rfl

/-- An entry whose metadata read fails. -/
def badMetaEntry : RawEntry := ⟨none, some "x"⟩

/-- A fully readable regular-file entry. -/
def goodEntry : RawEntry := ⟨some ⟨FType.file, 5, some 0, 0⟩, some "good.txt"⟩

/-- Claim C2 counterexample: an entry whose metadata cannot be read is not
dropped with scanning continuing — `entry.metadata().unwrap()` (main.rs
line 59) panics and aborts the whole scan, so scanning the pair
{bad, good} yields no listing at all, while scanning {good} alone
succeeds. -/
theorem c2_counterexample :
    extract_files_from_path (some [some badMetaEntry, some goodEntry]) = none ∧
    extract_files_from_path (some [some goodEntry]) ≠ none := by
  decide

/-- Claim C2 (amended): only a failure to read the modification time is
recovered locally — such an entry is dropped and scanning continues with
no error surfaced; an entry whose metadata cannot be read, or whose name
is not representable as text, instead aborts the entire scan (an `unwrap`
panic), whatever entries follow. -/
theorem c2_amended (e : RawEntry) (md : Metadata) (nm : String)
    (rest : List (Option RawEntry))
    (hm : e.meta = some md) (hn : e.fname = some nm) (ht : md.modified = none) :
    scanEntries (some e :: rest) = scanEntries rest ∧
    (∀ rest2 : List (Option RawEntry),
      scanEntries (some ⟨none, some nm⟩ :: rest2) = none) ∧
    (∀ rest2 : List (Option RawEntry),
      scanEntries (some ⟨some md, none⟩ :: rest2) = none) := by
  refine ⟨?_, fun _ => rfl, fun _ => rfl⟩
  simp only [scanEntries, hm, hn, ht]
  split <;> rfl

/-- Witness for `c2_amended`: an entry with unreadable modification time
is dropped and the scan of the remaining (empty) list succeeds. -/
theorem c2_amended_witness :
    scanEntries [some ⟨some ⟨FType.file, 1, none, 0⟩, some "m"⟩] = some ([], [], []) :=
  ((c2_amended ⟨some ⟨FType.file, 1, none, 0⟩, some "m"⟩ ⟨FType.file, 1, none, 0⟩ "m" []
    rfl rfl rfl).1).trans rfl

/-- Claim C9: an entry whose file type is neither directory nor regular
file (symlink, socket, device, ...) falls through both branches of the
categorization (main.rs lines 78-98) and contributes no `FileInfo`:
whenever the scan of the whole list succeeds, its result is exactly the
result of scanning the remaining entries. -/
theorem c9_other_dropped (e : RawEntry) (md : Metadata)
    (hm : e.meta = some md) (hf : md.ftype = FType.other) :
    ∀ (rest : List (Option RawEntry)) (res : List FileInfo × List FileInfo × List FileInfo),
      scanEntries (some e :: rest) = some res → scanEntries rest = some res := by
  intro rest res h
  obtain ⟨meta, fname⟩ := e
  replace hm : meta = some md := hm
  subst hm
  obtain ⟨ftype, len, modified, mode⟩ := md
  replace hf : ftype = FType.other := hf
  subst hf
  cases fname with
  | none => simp [scanEntries] at h
  | some nm =>
    cases modified with
    | none =>
      simp only [scanEntries] at h
      split at h <;> exact h
    | some t =>
      simp only [scanEntries] at h
      by_cases hdot : nm = "." ∨ nm = ".."
      · rwa [if_pos hdot] at h
      · rw [if_neg hdot] at h
        by_cases hneg : t < 0
        · rw [if_pos hneg] at h; simp at h
        · rw [if_neg hneg] at h
          cases hsr : scanEntries rest with
          | none => rw [hsr] at h; simp at h
          | some fde =>
            rw [hsr] at h
            simpa using h

/-- Witness for `c9_other_dropped`: a symlink-like entry alone scans to
the empty listing. -/
theorem c9_other_dropped_witness :
    scanEntries [] = some ([], [], []) :=
  c9_other_dropped ⟨some ⟨FType.other, 3, some 0, 0⟩, some "link"⟩ ⟨FType.other, 3, some 0, 0⟩
    rfl rfl [] ([], [], []) (by decide)

/-- Claim C6: classification order during scanning — a directory-typed
entry is categorized Directory regardless of its permission bits; a
regular file with any of the 0o111 execute bits set is categorized
Executable whatever its name/extension; a regular file with no execute
bit is categorized File. -/
theorem c6_classification (nm : String) (len t mode : Nat)
    (h1 : nm ≠ ".") (h2 : nm ≠ "..") :
    (scanEntries [some ⟨some ⟨FType.dir, len, some (t : Int), mode⟩, some nm⟩] =
      some ([], [⟨nm, human_readable_size len, formatTimestamp t⟩], [])) ∧
    (Nat.land mode 0o111 ≠ 0 →
      scanEntries [some ⟨some ⟨FType.file, len, some (t : Int), mode⟩, some nm⟩] =
        some ([], [], [⟨nm, human_readable_size len, formatTimestamp t⟩])) ∧
    (Nat.land mode 0o111 = 0 →
      scanEntries [some ⟨some ⟨FType.file, len, some (t : Int), mode⟩, some nm⟩] =
        some ([⟨nm, human_readable_size len, formatTimestamp t⟩], [], [])) := by
  have hdot : ¬ (nm = "." ∨ nm = "..") := by
    rintro (h | h)
    · exact h1 h
    · exact h2 h
  have hneg : ¬ ((t : Int) < 0) := by
    simp
  refine ⟨?_, ?_, ?_⟩
  · simp [scanEntries, hdot, hneg, Int.toNat_natCast]
  · intro hx
    simp [scanEntries, hdot, hneg, hx, Int.toNat_natCast]
  · intro hx
    simp [scanEntries, hdot, hneg, hx, Int.toNat_natCast]

/-- Witness for `c6_classification`: a mode-0o755 regular file whose
extension is in the icon table is still categorized Executable. -/
theorem c6_classification_witness :
    scanEntries [some ⟨some ⟨FType.file, 1, some (0 : Int), 0o755⟩, some "tool.py"⟩] =
      some ([], [], [⟨"tool.py", human_readable_size 1, formatTimestamp 0⟩]) :=
  (c6_classification "tool.py" 1 0 0o755 (by decide) (by decide)).2.1 (by decide)

/-- Claim C7: the resolved glyph is a function of the lowercased substring
after the last dot alone; a name without a dot, and a name whose
lowercased extension is absent from the table, both resolve to the
generic document glyph. -/
theorem c7_icon_resolver :
    (∀ n₁ n₂ : String, fileExtension n₁ = fileExtension n₂ →
      get_file_emoji n₁ = get_file_emoji n₂) ∧
    (∀ n : String, rsplitOnce n '.' = none → get_file_emoji n = "📄") ∧
    (∀ (n : String) (p : String × String), rsplitOnce n '.' = some p →
      emoji_map.lookup (toLowercase p.2) = none → get_file_emoji n = "📄") := by
  refine ⟨?_, ?_, ?_⟩
  · intro n₁ n₂ h
    simp [get_file_emoji, h]
  · intro n h
    simp only [get_file_emoji, fileExtension, h]
    decide
  · intro n p h hl
    simp [get_file_emoji, fileExtension, h, hl]

/-- Witness for `c7_icon_resolver`: case-insensitivity on "Photo.JPG" vs
"photo.jpg", and the generic glyph for "Makefile" and "data.xyz". -/
theorem c7_icon_resolver_witness :
    get_file_emoji "Photo.JPG" = get_file_emoji "photo.jpg" ∧
    get_file_emoji "Makefile" = "📄" ∧
    get_file_emoji "data.xyz" = "📄" :=
  ⟨c7_icon_resolver.1 "Photo.JPG" "photo.jpg" (by decide),
   c7_icon_resolver.2.1 "Makefile" (by decide),
   c7_icon_resolver.2.2 "data.xyz" ("data", "xyz") (by decide) (by decide)⟩

lemma scanEntries_no_dot :
    ∀ (entries : List (Option RawEntry)) (res : List FileInfo × List FileInfo × List FileInfo),
      scanEntries entries = some res →
      ∀ f : FileInfo, (f ∈ res.1 ∨ f ∈ res.2.1 ∨ f ∈ res.2.2) →
        f.name ≠ "." ∧ f.name ≠ ".." := by
  intro entries
  induction entries with
  | nil =>
    intro res h f hf
    simp only [scanEntries, Option.some.injEq] at h
    rw [← h] at hf
    simp at hf
  | cons oe rest ih =>
    intro res h f hf
    cases oe with
    | none =>
      simp only [scanEntries] at h
      exact ih res h f hf
    | some e =>
      obtain ⟨meta, fname⟩ := e
      cases meta with
      | none => simp [scanEntries] at h
      | some md =>
        cases fname with
        | none => simp [scanEntries] at h
        | some nm =>
          obtain ⟨ftype, len, modified, mode⟩ := md
          cases modified with
          | none =>
            simp only [scanEntries] at h
            by_cases hdot : nm = "." ∨ nm = ".."
            · rw [if_pos hdot] at h; exact ih res h f hf
            · rw [if_neg hdot] at h; exact ih res h f hf
          | some t =>
            cases hsr : scanEntries rest with
            | none =>
              simp only [scanEntries, hsr] at h
              by_cases hdot : nm = "." ∨ nm = ".."
              · rw [if_pos hdot] at h; exact absurd h (by simp)
              · rw [if_neg hdot] at h
                by_cases hneg : t < 0
                · rw [if_pos hneg] at h; exact absurd h (by simp)
                · rw [if_neg hneg] at h; exact absurd h (by simp)
            | some fde =>
              simp only [scanEntries, hsr] at h
              have ihf := ih fde hsr
              by_cases hdot : nm = "." ∨ nm = ".."
              · rw [if_pos hdot] at h
                injection h with h
                rw [← h] at hf
                exact ihf f hf
              · rw [if_neg hdot] at h
                push_neg at hdot
                by_cases hneg : t < 0
                · rw [if_pos hneg] at h; exact absurd h (by simp)
                · rw [if_neg hneg] at h
                  cases ftype with
                  | dir =>
                    rw [if_pos rfl] at h
                    injection h with h
                    rw [← h] at hf
                    simp only [List.mem_cons] at hf
                    rcases hf with hf | hf | hf
                    · exact ihf f (Or.inl hf)
                    · rcases hf with rfl | hf
                      · exact ⟨hdot.1, hdot.2⟩
                      · exact ihf f (Or.inr (Or.inl hf))
                    · exact ihf f (Or.inr (Or.inr hf))
                  | file =>
                    rw [if_neg (by decide : ¬ (FType.file = FType.dir)), if_pos rfl] at h
                    by_cases hx : Nat.land mode 0o111 ≠ 0
                    · rw [if_pos hx] at h
                      injection h with h
                      rw [← h] at hf
                      simp only [List.mem_cons] at hf
                      rcases hf with hf | hf | hf
                      · exact ihf f (Or.inl hf)
                      · exact ihf f (Or.inr (Or.inl hf))
                      · rcases hf with rfl | hf
                        · exact ⟨hdot.1, hdot.2⟩
                        · exact ihf f (Or.inr (Or.inr hf))
                    · rw [if_neg hx] at h
                      injection h with h
                      rw [← h] at hf
                      simp only [List.mem_cons] at hf
                      rcases hf with hf | hf | hf
                      · rcases hf with rfl | hf
                        · exact ⟨hdot.1, hdot.2⟩
                        · exact ihf f (Or.inl hf)
                      · exact ihf f (Or.inr (Or.inl hf))
                      · exact ihf f (Or.inr (Or.inr hf))
                  | other =>
                    rw [if_neg (by decide : ¬ (FType.other = FType.dir)),
                      if_neg (by decide : ¬ (FType.other = FType.file))] at h
                    injection h with h
                    rw [← h] at hf
                    exact ihf f hf

/-- Claim C8: entries named "." or ".." never appear in the produced
listing — the scanner skips them (main.rs lines 63-66) before
categorization, and sorting only permutes the collected entries. -/
theorem c8_no_dot_entries (readDir : Option (List (Option RawEntry))) (dc : DirContents)
    (h : extract_files_from_path readDir = some dc) :
    ∀ f : FileInfo, (f ∈ dc.files ∨ f ∈ dc.directories ∨ f ∈ dc.executables) →
      f.name ≠ "." ∧ f.name ≠ ".." := by
  intro f hf
  cases readDir with
  | none =>
    simp only [extract_files_from_path, Option.some.injEq] at h
    rw [← h] at hf
    simp [sortFiles, sortBy] at hf
  | some entries =>
    simp only [extract_files_from_path] at h
    cases hs : scanEntries entries with
    | none => rw [hs] at h; simp at h
    | some res =>
      rw [hs] at h
      simp only [Option.some.injEq] at h
      rw [← h] at hf
      simp only [] at hf
      have := scanEntries_no_dot entries res hs f
      apply this
      rcases hf with hf | hf | hf
      · exact Or.inl ((mem_sortBy fileInfoLe f res.1).mp hf)
      · exact Or.inr (Or.inl ((mem_sortBy fileInfoLe f res.2.1).mp hf))
      · exact Or.inr (Or.inr ((mem_sortBy fileInfoLe f res.2.2).mp hf))

/-- Witness for `c8_no_dot_entries`: a scan whose raw entries include "."
and ".." produces a listing whose sole entry is the ordinary file. -/
theorem c8_no_dot_entries_witness :
    (⟨"good.txt", "5.00 B", "1970-01-01 00:00:00"⟩ : FileInfo).name ≠ "." ∧
    (⟨"good.txt", "5.00 B", "1970-01-01 00:00:00"⟩ : FileInfo).name ≠ ".." :=
  c8_no_dot_entries
    (some [some ⟨some ⟨FType.dir, 0, some 0, 0⟩, some "."⟩,
           some ⟨some ⟨FType.dir, 0, some 0, 0⟩, some ".."⟩,
           some goodEntry])
    ⟨[⟨"good.txt", "5.00 B", "1970-01-01 00:00:00"⟩], [], []⟩
    (by decide)
    ⟨"good.txt", "5.00 B", "1970-01-01 00:00:00"⟩
    (Or.inl (by decide))

lemma updateMaxLengths_le (l : List FileInfo) :
    ∀ acc : LongestFileInfoFields,
      acc.max_name_len ≤ (updateMaxLengths acc l).max_name_len ∧
      acc.max_size_len ≤ (updateMaxLengths acc l).max_size_len ∧
      acc.max_date_len ≤ (updateMaxLengths acc l).max_date_len := by
  induction l with
  | nil =>
    intro acc
    simp [updateMaxLengths]
  | cons g rest ih =>
    intro acc
    have h := ih ⟨max acc.max_name_len g.name.utf8ByteSize,
      max acc.max_size_len g.readable_size.utf8ByteSize,
      max acc.max_date_len g.modified_at.utf8ByteSize⟩
    simp only [updateMaxLengths, List.foldl_cons] at h ⊢
    exact ⟨le_trans (le_max_left _ _) h.1,
      le_trans (le_max_left _ _) h.2.1,
      le_trans (le_max_left _ _) h.2.2⟩

lemma updateMaxLengths_mem (l : List FileInfo) (f : FileInfo) :
    ∀ acc : LongestFileInfoFields, f ∈ l →
      f.name.utf8ByteSize ≤ (updateMaxLengths acc l).max_name_len ∧
      f.readable_size.utf8ByteSize ≤ (updateMaxLengths acc l).max_size_len ∧
      f.modified_at.utf8ByteSize ≤ (updateMaxLengths acc l).max_date_len := by
  induction l with
  | nil =>
    intro acc hf
    simp at hf
  | cons g rest ih =>
    intro acc hf
    rcases List.mem_cons.mp hf with rfl | hf'
    · have h := updateMaxLengths_le rest ⟨max acc.max_name_len f.name.utf8ByteSize,
        max acc.max_size_len f.readable_size.utf8ByteSize,
        max acc.max_date_len f.modified_at.utf8ByteSize⟩
      simp only [updateMaxLengths, List.foldl_cons] at h ⊢
      exact ⟨le_trans (le_max_right _ _) h.1,
        le_trans (le_max_right _ _) h.2.1,
        le_trans (le_max_right _ _) h.2.2⟩
    · have h := ih ⟨max acc.max_name_len g.name.utf8ByteSize,
        max acc.max_size_len g.readable_size.utf8ByteSize,
        max acc.max_date_len g.modified_at.utf8ByteSize⟩ hf'
      simp only [updateMaxLengths, List.foldl_cons] at h ⊢
      exact h

/-- Claim C3 counterexample: for the empty listing (reachable, e.g. an
empty or unreadable directory) the Name column's separator row cell is the
empty string while the header cell "Name" has length 4, so the separator
dash count is not at least the longest value length across the header row
and all data rows. -/
theorem c3_counterexample : ¬ sepCoversColumn ⟨[], [], []⟩ 2 := by
  intro h
  exact absurd h.1 (by decide)

/-- Claim C3 (amended): each column's separator consists of exactly the
maximum byte length, over the collected entries only (header excluded, and
excluding the rendered icon prefix and the trailing slash of directory
names), of the corresponding raw field — name, size string, timestamp
string — with the Modified separator carrying 3 extra dashes; the dash
counts therefore bound every entry's field length, but not necessarily the
header's. -/
theorem c3_amended (dc : DirContents) :
    ((dc.print).getD 1 [] =
      ["---" ++ dashes dc.get_longest_field_entries.max_date_len,
       dashes dc.get_longest_field_entries.max_size_len,
       dashes dc.get_longest_field_entries.max_name_len]) ∧
    (("---" ++ dashes dc.get_longest_field_entries.max_date_len).length =
      3 + dc.get_longest_field_entries.max_date_len) ∧
    ((dashes dc.get_longest_field_entries.max_size_len).length =
      dc.get_longest_field_entries.max_size_len) ∧
    ((dashes dc.get_longest_field_entries.max_name_len).length =
      dc.get_longest_field_entries.max_name_len) ∧
    (∀ f : FileInfo, (f ∈ dc.files ∨ f ∈ dc.directories ∨ f ∈ dc.executables) →
      f.name.utf8ByteSize ≤ dc.get_longest_field_entries.max_name_len ∧
      f.readable_size.utf8ByteSize ≤ dc.get_longest_field_entries.max_size_len ∧
      f.modified_at.utf8ByteSize ≤ dc.get_longest_field_entries.max_date_len) := by
  have hdlen : ∀ n : Nat, (dashes n).length = n := by
    intro n
    simp [dashes, String.length]
  refine ⟨?_, ?_, hdlen _, hdlen _, ?_⟩
  · simp [DirContents.print]
  · rw [String.length_append, hdlen]
    rfl
  · intro f hf
    rcases hf with hf | hf | hf
    · have h1 := updateMaxLengths_mem dc.files f ⟨0, 0, 0⟩ hf
      have h2 := updateMaxLengths_le dc.directories (updateMaxLengths ⟨0, 0, 0⟩ dc.files)
      have h3 := updateMaxLengths_le dc.executables
        (updateMaxLengths (updateMaxLengths ⟨0, 0, 0⟩ dc.files) dc.directories)
      exact ⟨le_trans (le_trans h1.1 h2.1) h3.1,
        le_trans (le_trans h1.2.1 h2.2.1) h3.2.1,
        le_trans (le_trans h1.2.2 h2.2.2) h3.2.2⟩
    · have h1 := updateMaxLengths_mem dc.directories f (updateMaxLengths ⟨0, 0, 0⟩ dc.files) hf
      have h3 := updateMaxLengths_le dc.executables
        (updateMaxLengths (updateMaxLengths ⟨0, 0, 0⟩ dc.files) dc.directories)
      exact ⟨le_trans h1.1 h3.1, le_trans h1.2.1 h3.2.1, le_trans h1.2.2 h3.2.2⟩
    · exact updateMaxLengths_mem dc.executables f
        (updateMaxLengths (updateMaxLengths ⟨0, 0, 0⟩ dc.files) dc.directories) hf

/-- Witness for `c3_amended` at a one-entry listing. -/
theorem c3_amended_witness :
    sampleUpperA.name.utf8ByteSize ≤
      (DirContents.get_longest_field_entries ⟨[sampleUpperA], [], []⟩).max_name_len ∧
    sampleUpperA.readable_size.utf8ByteSize ≤
      (DirContents.get_longest_field_entries ⟨[sampleUpperA], [], []⟩).max_size_len ∧
    sampleUpperA.modified_at.utf8ByteSize ≤
      (DirContents.get_longest_field_entries ⟨[sampleUpperA], [], []⟩).max_date_len :=
  (c3_amended ⟨[sampleUpperA], [], []⟩).2.2.2.2 sampleUpperA (Or.inl (by decide))

lemma hrsLoop_succ (fuel num den unit : Nat) :
    hrsLoop (fuel + 1) (num, den) unit =
      if 1024 * den ≤ num ∧ unit < 4 then hrsLoop fuel (num, den * 1024) (unit + 1)
      else ((num, den), unit) := rfl

lemma hrsLoop_zero (s : Nat × Nat) (unit : Nat) : hrsLoop 0 s unit = (s, unit) := rfl

lemma hrsLoop_eq (n : Nat) :
    hrsLoop 4 (n, 1) 0 = ((n, 1024 ^ claimUnitIndex n), claimUnitIndex n) := by
  have p2 : (1024 : Nat) ^ 2 = 1048576 := by norm_num
  have p3 : (1024 : Nat) ^ 3 = 1073741824 := by norm_num
  have p4 : (1024 : Nat) ^ 4 = 1099511627776 := by norm_num
  by_cases h1 : n < 1024
  · rw [hrsLoop_succ, if_neg (by omega)]
    unfold claimUnitIndex
    rw [if_pos h1]
    norm_num
  · by_cases h2 : n < 1048576
    · rw [hrsLoop_succ, if_pos ⟨by omega, by omega⟩,
        hrsLoop_succ, if_neg (by omega)]
      unfold claimUnitIndex
      rw [p2, p3, p4, if_neg h1, if_pos h2]
      norm_num
    · by_cases h3 : n < 1073741824
      · rw [hrsLoop_succ, if_pos ⟨by omega, by omega⟩,
          hrsLoop_succ, if_pos ⟨by omega, by omega⟩,
          hrsLoop_succ, if_neg (by omega)]
        unfold claimUnitIndex
        rw [p2, p3, p4, if_neg h1, if_neg h2, if_pos h3]
        norm_num
      · by_cases h4 : n < 1099511627776
        · rw [hrsLoop_succ, if_pos ⟨by omega, by omega⟩,
            hrsLoop_succ, if_pos ⟨by omega, by omega⟩,
            hrsLoop_succ, if_pos ⟨by omega, by omega⟩,
            hrsLoop_succ, if_neg (by omega)]
          unfold claimUnitIndex
          rw [p2, p3, p4, if_neg h1, if_neg h2, if_neg h3, if_pos h4]
          norm_num
        · rw [hrsLoop_succ, if_pos ⟨by omega, by omega⟩,
            hrsLoop_succ, if_pos ⟨by omega, by omega⟩,
            hrsLoop_succ, if_pos ⟨by omega, by omega⟩,
            hrsLoop_succ, if_pos ⟨by omega, by omega⟩,
            hrsLoop_zero]
          unfold claimUnitIndex
          rw [p2, p3, p4, if_neg h1, if_neg h2, if_neg h3, if_neg h4]
          norm_num

lemma pad2_length (r : Nat) (hr : r < 100) : (pad2 r).length = 2 := by
  have h : ∀ x : Fin 100, (pad2 x.val).length = 2 := by decide
  exact h ⟨r, hr⟩

lemma pad2_digits (r : Nat) (hr : r < 100) : (pad2 r).data.all Char.isDigit = true := by
  have h : ∀ x : Fin 100, (pad2 x.val).data.all Char.isDigit = true := by decide
  exact h ⟨r, hr⟩

/-- Claim C5: for every byte count the Size Formatter renders
"<value> <unit>" with exactly two decimal digits, where the unit is the
one reached by successively dividing by 1024 while the value stays at or
above 1024, capped at TB (the claim's "largest unit such that the scaled
value is < 1024", as its own examples fix the reading); in particular the
four cited inputs map to the cited strings. -/
theorem c5_size_formatter :
    (∀ n : Nat, ∃ intPart fracPart : String,
      human_readable_size n =
        intPart ++ "." ++ fracPart ++ " " ++
          (["B", "KB", "MB", "GB", "TB"].getD (claimUnitIndex n) "") ∧
      fracPart.length = 2 ∧ fracPart.data.all Char.isDigit = true) ∧
    human_readable_size 0 = "0.00 B" ∧
    human_readable_size 1024 = "1.00 KB" ∧
    human_readable_size 1536 = "1.50 KB" ∧
    human_readable_size 1099511627776 = "1.00 TB" := by
  refine ⟨?_, by decide, by decide, by decide, by decide⟩
  intro n
  refine ⟨toString (roundHalfEven (100 * n) (1024 ^ claimUnitIndex n) / 100),
    pad2 (roundHalfEven (100 * n) (1024 ^ claimUnitIndex n) % 100), ?_, ?_, ?_⟩
  · simp only [human_readable_size, hrsLoop_eq, fmt2]
  · exact pad2_length _ (Nat.mod_lt _ (by norm_num))
  · exact pad2_digits _ (Nat.mod_lt _ (by norm_num))
